import Mathlib

/-!
Shallow embedding of `src/src/models/novel_alerts_model.py` (class `NovelAlertsModel`).

Conventions of the embedding:

* A tracked record `{"URL": ..., "latestChapter": ...}` becomes the structure `Record`.
* Network and file-system effects are captured by an explicit environment `Env`
  (scrape outcomes of the two extraction routines, success of file opens, SMTP
  outcomes, initial file contents) and every observable action (message-box
  call, routine invocation, file write/append, email attempt/send) is recorded
  in an append-only event log inside `ModelState`.
* Python exceptions are modelled explicitly: operations return the state
  reached together with `Option PyErr`; `some e` means the Python call would
  raise `e` to its caller (mutations performed before the raise are kept, as in
  Python).  A `try/except` in the source becomes a `match` that absorbs the
  error and emits the corresponding message event.
* The on-disk CSV format of the `csv` module (excel dialect: delimiter `,`,
  quote char `"`, QUOTE_MINIMAL, line terminator CRLF) is modelled character by
  character, together with the universal-newline translation performed by
  `open(path, mode='r')` in text mode (newline=None) on Linux: on reading,
  `"\r\n"` and lone `"\r"` are translated to `"\n"`; on writing the
  translation is the identity (os.linesep is `"\n"`).
* String comparison `<` of Python (lexicographic by code point) is Lean's
  `String` order, which is also lexicographic by code point.
-/

namespace NovelAlerts

/-- One tracked record: `{"URL": url, "latestChapter": chapter}`. -/
structure Record where
  URL : String
  latestChapter : String
deriving DecidableEq, Repr

/-! ## CSV codec (Python `csv` module, excel dialect) -/

/-- Characters that force QUOTE_MINIMAL quoting: the delimiter, the quote char
and the characters of the line terminator `"\r\n"`. -/
def isSpecialChar (c : Char) : Bool :=
  c = ',' || c = '"' || c = '\r' || c = '\n'

/-- A field is quoted by the writer iff it contains a special character. -/
def needsQuote (s : List Char) : Bool := s.any isSpecialChar

/-- Inside a quoted field the writer doubles every quote character. -/
def escQuotes : List Char → List Char
  | [] => []
  | c :: r => if c = '"' then '"' :: '"' :: escQuotes r else c :: escQuotes r

/-- `csv.writer` encoding of one field (QUOTE_MINIMAL). -/
def encodeField (s : List Char) : List Char :=
  if needsQuote s then '"' :: (escQuotes s ++ ['"']) else s

/-- `csv.writer.writerow` for a two-field row, terminated by CRLF. -/
def encodeRow2 (a b : List Char) : List Char :=
  encodeField a ++ ',' :: (encodeField b ++ ['\r', '\n'])

/-- A two-field row as it looks after universal-newline translation of the
terminator (LF instead of CRLF). -/
def encodeRowLF (a b : List Char) : List Char :=
  encodeField a ++ ',' :: (encodeField b ++ ['\n'])

/-- Whole-file encoding: concatenation of encoded rows. -/
def encodeRows (rows : List (List Char × List Char)) : List Char :=
  (rows.map fun p => encodeRow2 p.1 p.2).flatten

/-- Whole-file encoding with LF terminators (the reader-side view). -/
def encodeRowsLF (rows : List (List Char × List Char)) : List Char :=
  (rows.map fun p => encodeRowLF p.1 p.2).flatten

/-- Universal-newline translation of `open(path, mode='r')` (newline=None):
`"\r\n"` and lone `"\r"` both become `"\n"`. -/
def translateNewlines : List Char → List Char
  | [] => []
  | c :: rest =>
    if c = '\r' then
      match rest with
      | d :: rest2 =>
        if d = '\n' then '\n' :: translateNewlines rest2
        else '\n' :: translateNewlines (d :: rest2)
      | [] => ['\n']
    else c :: translateNewlines rest

/-- `csv.reader`: parse a quoted field after its opening quote.  Returns the
field content and the input remaining after the closing quote. -/
def parseQuoted : List Char → List Char × List Char
  | [] => ([], [])
  | c :: rest =>
    if c = '"' then
      match rest with
      | d :: rest2 =>
        if d = '"' then ('"' :: (parseQuoted rest2).1, (parseQuoted rest2).2)
        else ([], d :: rest2)
      | [] => ([], [])
    else (c :: (parseQuoted rest).1, (parseQuoted rest).2)

/-- `csv.reader`: parse an unquoted field (stops before a delimiter or a line
terminator character). -/
def parseUnquoted : List Char → List Char × List Char
  | [] => ([], [])
  | c :: rest =>
    if c = ',' ∨ c = '\r' ∨ c = '\n' then ([], c :: rest)
    else (c :: (parseUnquoted rest).1, (parseUnquoted rest).2)

/-- `csv.reader`: parse one field. -/
def parseField : List Char → List Char × List Char
  | [] => ([], [])
  | c :: rest => if c = '"' then parseQuoted rest else parseUnquoted (c :: rest)

/-- `csv.reader`: parse one row (fields separated by `,`, row ended by a line
terminator or end of input).  `fuel` bounds the number of fields. -/
def parseRowF : Nat → List Char → List (List Char) × List Char
  | fuel, cs =>
    let p := parseField cs
    match p.2 with
    | [] => ([p.1], [])
    | c :: r =>
      if c = ',' then
        match fuel with
        | 0 => ([p.1], c :: r)
        | fuel' + 1 => (p.1 :: (parseRowF fuel' r).1, (parseRowF fuel' r).2)
      else if c = '\r' then
        match r with
        | d :: r2 => if d = '\n' then ([p.1], r2) else ([p.1], d :: r2)
        | [] => ([p.1], [])
      else if c = '\n' then ([p.1], r)
      else ([p.1], c :: r)

/-- `csv.reader`: parse all rows.  `fuel` bounds the number of rows; callers
pass the input length, which always suffices. -/
def parseRowsF : Nat → List Char → List (List (List Char))
  | 0, _ => []
  | fuel + 1, cs =>
    if cs.isEmpty then []
    else
      (parseRowF cs.length cs).1 :: parseRowsF fuel (parseRowF cs.length cs).2

/-- After a field, the parser must be looking at a delimiter, a terminator
character, or the end of the input. -/
def stopOk : List Char → Prop
  | [] => True
  | c :: _ => c = ',' ∨ c = '\r' ∨ c = '\n'

/-- A pair of fields contains no carriage return. -/
def noCRRow (p : List Char × List Char) : Prop :=
  (∀ c ∈ p.1, c ≠ '\r') ∧ (∀ c ∈ p.2, c ≠ '\r')

/-! ## The ledger file -/

/-- Contents written by `_write_URL_data_to_file` (lines 239-248), as
characters: header row followed by one row per record, in order. -/
def persistChars (l : List Record) : List Char :=
  encodeRows
    (("URL".data, "latestChapter".data) :: l.map fun r => (r.URL.data, r.latestChapter.data))

/-- Contents written by `_write_URL_data_to_file`, as a string. -/
def persistContent (l : List Record) : String := String.mk (persistChars l)

/-- One CSV row as appended by `addURLData` via `csv.DictWriter.writerow`. -/
def encodeRowStr (a b : String) : String := String.mk (encodeRow2 a.data b.data)

/-- `csv.DictReader` field lookup: columns are matched by header name, not by
position. -/
def fieldByName (header row : List String) (key : String) : String :=
  match (header.zip row).find? (fun p => p.1 == key) with
  | some p => p.2
  | none => ""

/-- The rows the `csv` reader sees when the file holds `content`:
universal-newline translation of text mode, then CSV parsing. -/
def rowsOf (content : String) : List (List String) :=
  (parseRowsF (translateNewlines content.data).length (translateNewlines content.data)).map
    fun row => row.map fun f => String.mk f

/-- `_load_URL_Data` (lines 202-207): read the CSV file into records.  The
first row is the header; fields are matched by name. -/
def _load_URL_Data (content : String) : List Record :=
  match rowsOf content with
  | [] => []
  | header :: rows =>
    rows.map fun row =>
      { URL := fieldByName header row "URL"
        latestChapter := fieldByName header row "latestChapter" }

/-- Universal-newline text read of a whole file (`open(path, 'r').read()`). -/
def readText (bytes : String) : String := String.mk (translateNewlines bytes.data)

/-! ## Model state, environment, operations -/

/-- A Python exception escaping an operation to its caller. -/
inductive PyErr
  | ioError
deriving DecidableEq, Repr

/-- Observable actions of the model, recorded in the order they happen. -/
inductive Event
  | msg (text : String)              -- a `_message_box(text)` call
  | fetchA (url : String)            -- `_webscrape_WLN_Latest_Chapter` invoked
  | fetchB (url : String)            -- `_webscrape_Novelupdates_Latest_Chapter` invoked
  | fileWrite (content : String)     -- URL file truncated and rewritten whole
  | fileAppend (row : String)        -- one row appended to the URL file
  | emailFileWrite (content : String)
  | emailTry (urls : List String)    -- `_send_Email` invoked
  | emailSend (body : String)        -- `server.sendmail` succeeded
deriving DecidableEq, Repr

/-- The mutable state of a `NovelAlertsModel` object plus the files it owns
and the log of its observable actions. -/
structure ModelState where
  url_data : List Record
  urlFile : String       -- bytes of the URL csv file on disk
  emailFile : String     -- bytes of the email file on disk
  user_email : String
  password : String
  events : List Event
deriving DecidableEq, Repr

/-- Outcomes of the network and file-system effects.  A scrape returning
`Except.error ()` means the body of the corresponding `try` raised. -/
structure Env where
  wlnFetch : String → Except Unit String    -- the `try` body of routine A
  nuFetch : String → Except Unit String     -- the `try` body of routine B
  urlWriteOk : Bool     -- does opening the URL file for writing/appending succeed?
  emailWriteOk : Bool   -- does opening the email file for writing succeed?
  connectOk : Bool      -- does the SMTP_SSL connection succeed?
  loginOk : String → String → Bool  -- do login and sendmail succeed for (email, password)?
  emailRead : Option String  -- bytes of the email file, `none` when it is missing
  urlRead : Option String    -- bytes of the URL csv file, `none` when it is missing

def addMsg (s : ModelState) (t : String) : ModelState :=
  { s with events := s.events ++ [Event.msg t] }

def errScrapeMsg : String :=
  "ERROR: Could not find the latest chapter and was not entered into the data."

def errDomainMsg : String :=
  "ERROR: URL is not correct or from wlnupdates or novelupdates domain"

/-- Python substring containment, `needle in hay` (case-sensitive). -/
def strContains (hay needle : String) : Bool := decide (needle.data <:+: hay.data)

/-- `_webscrape_WLN_Latest_Chapter` (lines 64-86): the whole `try` body
(request, parse, find the first `h5`, strip 17 characters) is the
environment's `wlnFetch`; the `except` clause reports an error and the
function falls through returning `None`. -/
def _webscrape_WLN_Latest_Chapter (env : Env) (URL : String) (s : ModelState) :
    Option String × ModelState :=
  match env.wlnFetch URL with
  | Except.ok chap => (some chap, { s with events := s.events ++ [Event.fetchA URL] })
  | Except.error _ =>
      (none, { s with events := s.events ++ [Event.fetchA URL, Event.msg errScrapeMsg] })

/-- `_webscrape_Novelupdates_Latest_Chapter` (lines 88-102), analogously. -/
def _webscrape_Novelupdates_Latest_Chapter (env : Env) (URL : String) (s : ModelState) :
    Option String × ModelState :=
  match env.nuFetch URL with
  | Except.ok chap => (some chap, { s with events := s.events ++ [Event.fetchB URL] })
  | Except.error _ =>
      (none, { s with events := s.events ++ [Event.fetchB URL, Event.msg errScrapeMsg] })

/-- `_get_Latest_Chapter_URL_Filtered` (lines 54-62): substring dispatch,
first match wins; an unsupported URL reports an error and returns `None`. -/
def _get_Latest_Chapter_URL_Filtered (env : Env) (URL : String) (s : ModelState) :
    Option String × ModelState :=
  if strContains URL "wln" && strContains URL "series-id" then
    _webscrape_WLN_Latest_Chapter env URL s
  else if strContains URL "novelupdates" && strContains URL "series" then
    _webscrape_Novelupdates_Latest_Chapter env URL s
  else
    (none, addMsg s errDomainMsg)

/-- The value `_get_Latest_Chapter_URL_Filtered` returns, as a pure function
of the environment. -/
def scrapePure (env : Env) (URL : String) : Option String :=
  if strContains URL "wln" && strContains URL "series-id" then
    (env.wlnFetch URL).toOption
  else if strContains URL "novelupdates" && strContains URL "series" then
    (env.nuFetch URL).toOption
  else none

/-- The events `_get_Latest_Chapter_URL_Filtered` appends. -/
def dispatchEvents (env : Env) (URL : String) : List Event :=
  if strContains URL "wln" && strContains URL "series-id" then
    match env.wlnFetch URL with
    | Except.ok _ => [Event.fetchA URL]
    | Except.error _ => [Event.fetchA URL, Event.msg errScrapeMsg]
  else if strContains URL "novelupdates" && strContains URL "series" then
    match env.nuFetch URL with
    | Except.ok _ => [Event.fetchB URL]
    | Except.error _ => [Event.fetchB URL, Event.msg errScrapeMsg]
  else [Event.msg errDomainMsg]

/-- Is a record reported as updated?  Exactly when the scrape is present and
strictly greater (lexicographic string order) than the stored token. -/
def isUpdated (env : Env) (r : Record) : Bool :=
  match scrapePure env r.URL with
  | some c => decide (r.latestChapter < c)
  | none => false

/-- The in-place mutation `_compile_updated_URLS` applies to one record. -/
def recordStep (env : Env) (r : Record) : Record :=
  match scrapePure env r.URL with
  | some c => if r.latestChapter < c then { r with latestChapter := c } else r
  | none => r

/-- The events of scraping a whole ledger in order. -/
def eventsAll (env : Env) (l : List Record) : List Event :=
  (l.map fun r => dispatchEvents env r.URL).flatten

/-- The loop of `_compile_updated_URLS` (lines 143-154): collect updated URLs
and mutate records in place, threading the state. -/
def compileList (env : Env) :
    ModelState → List Record → List String × List Record × ModelState
  | s, [] => ([], [], s)
  | s, r :: rest =>
    let p := _get_Latest_Chapter_URL_Filtered env r.URL s
    match p.1 with
    | none =>
      let q := compileList env p.2 rest
      (q.1, r :: q.2.1, q.2.2)
    | some chap =>
      if r.latestChapter < chap then
        let q := compileList env p.2 rest
        (r.URL :: q.1, { r with latestChapter := chap } :: q.2.1, q.2.2)
      else
        let q := compileList env p.2 rest
        (q.1, r :: q.2.1, q.2.2)

/-- `_compile_updated_URLS` (lines 140-156). -/
def _compile_updated_URLS (env : Env) (s : ModelState) : List String × ModelState :=
  let t := compileList env s s.url_data
  (t.1, { t.2.2 with url_data := t.2.1 })

/-- `_write_URL_data_to_file` (lines 239-248): `open(..., 'w')` truncates and
rewrites header plus all records; a failing open raises `IOError` with the
file unchanged. -/
def _write_URL_data_to_file (env : Env) (s : ModelState) : ModelState × Option PyErr :=
  if env.urlWriteOk then
    ({ s with urlFile := persistContent s.url_data,
              events := s.events ++ [Event.fileWrite (persistContent s.url_data)] }, none)
  else (s, some PyErr.ioError)

/-- `_integrate_Updated_URLS` (lines 104-112). -/
def _integrate_Updated_URLS (updated_URLS : List String) : String :=
  updated_URLS.foldl (fun message url => message ++ url ++ "\n") ""

/-- The events `_send_Email` (lines 114-138) produces: the invocation, then a
successful send or the reported connection/authentication error (both failure
modes are caught inside `_send_Email`). -/
def sendEventsOf (env : Env) (email pw : String) (urls : List String) : List Event :=
  Event.emailTry urls ::
    (if env.connectOk then
      if env.loginOk email pw then [Event.emailSend (_integrate_Updated_URLS urls)]
      else [Event.msg "ERROR: Email or password is incorrect!"]
    else [Event.msg "ERROR: Server connection could not be established!"])

/-- `_send_Email` (lines 114-138). -/
def _send_Email (env : Env) (urls : List String) (s : ModelState) : ModelState :=
  { s with events := s.events ++ sendEventsOf env s.user_email s.password urls }

/-- `_webscrape_Check` (lines 158-171): no-op on an empty ledger; otherwise
compile the updates and, when some exist, rewrite the file and send the email.
The surrounding `try/except` converts any failure (in this model: the file
rewrite) into a reported message. -/
def _webscrape_Check (env : Env) (s : ModelState) : ModelState :=
  if s.url_data.isEmpty then s
  else
    let c := _compile_updated_URLS env s
    if c.1.isEmpty then c.2
    else
      match _write_URL_data_to_file env c.2 with
      | (s2, none) => _send_Email env c.1 s2
      | (s2, some _) =>
          addMsg s2 "Error: Webscraper did not work. If this continues then restart program."

/-- `setEmail` (lines 173-179): the in-memory email is set before the file is
opened, and a failing open raises past `setEmail`. -/
def setEmail (env : Env) (email : String) (s : ModelState) : ModelState × Option PyErr :=
  let s1 := { s with user_email := email }
  if env.emailWriteOk then
    ({ s1 with emailFile := email,
               events := s1.events ++ [Event.emailFileWrite email] }, none)
  else (s1, some PyErr.ioError)

/-- `getEmail` (lines 187-190). -/
def getEmail (s : ModelState) : String := s.user_email

/-- `setPassword` (lines 192-195). -/
def setPassword (password : String) (s : ModelState) : ModelState :=
  { s with password := password }

/-- `getPassword` (lines 197-200). -/
def getPassword (s : ModelState) : String := s.password

/-- `addURLData` (lines 209-228): reject a duplicate, abort on an absent
scrape, otherwise append to memory and append one row to the file. -/
def addURLData (env : Env) (URL : String) (s : ModelState) : ModelState × Option PyErr :=
  if s.url_data.any (fun r => r.URL == URL) then
    (addMsg s "ERROR: URL is already in data structure", none)
  else
    let p := _get_Latest_Chapter_URL_Filtered env URL s
    match p.1 with
    | none => (p.2, none)
    | some chap =>
      let s2 := { p.2 with url_data := p.2.url_data ++ [⟨URL, chap⟩] }
      if env.urlWriteOk then
        ({ s2 with urlFile := s2.urlFile ++ encodeRowStr URL chap,
                   events := s2.events ++ [Event.fileAppend (encodeRowStr URL chap)] }, none)
      else (s2, some PyErr.ioError)

/-- Python's `list.remove`: drop the first element equal to `r`. -/
def removeFirst (r : Record) : List Record → List Record
  | [] => []
  | x :: xs => if x = r then xs else x :: removeFirst r xs

/-- `deleteURLData` (lines 250-261): remove the first record whose URL
matches, report "Success" and rewrite the file; otherwise report not-found. -/
def deleteURLData (env : Env) (URL : String) (s : ModelState) : ModelState × Option PyErr :=
  match s.url_data.find? (fun r => r.URL == URL) with
  | some r =>
    _write_URL_data_to_file env
      { s with url_data := removeFirst r s.url_data,
               events := s.events ++ [Event.msg "Success"] }
  | none =>
    (addMsg s "Error: URL is not within existing data or not correct!", none)

/-- The public operations of the model object. -/
inductive Op
  | addURL (url : String)
  | deleteURL (url : String)
  | check
  | setEmail (email : String)
  | setPassword (password : String)
  | getEmail
  | getPassword
deriving DecidableEq, Repr

/-- Run one public operation: the state reached and the exception escaping to
the caller, if any (mutations made before a raise are kept, as in Python). -/
def step (env : Env) : Op → ModelState → ModelState × Option PyErr
  | Op.addURL u, s => addURLData env u s
  | Op.deleteURL u, s => deleteURLData env u s
  | Op.check, s => (_webscrape_Check env s, none)
  | Op.setEmail e, s => setEmail env e s
  | Op.setPassword p, s => (setPassword p s, none)
  | Op.getEmail, s => (s, none)
  | Op.getPassword, s => (s, none)

/-- `__init__` (lines 39-51): `_load_email` opens the email file (raising if
it is missing), then `_load_URL_Data` opens the URL file (likewise); the
password starts empty and an empty ledger initializes the csv file with the
header row. -/
def init (env : Env) : Except PyErr ModelState :=
  match env.emailRead with
  | none => Except.error PyErr.ioError
  | some emailBytes =>
    match env.urlRead with
    | none => Except.error PyErr.ioError
    | some urlBytes =>
      let data := _load_URL_Data urlBytes
      let s : ModelState :=
        { url_data := data, urlFile := urlBytes, emailFile := emailBytes,
          user_email := readText emailBytes, password := "", events := [] }
      if data.isEmpty then
        match _write_URL_data_to_file env s with
        | (s1, none) => Except.ok s1
        | (_, some e) => Except.error e
      else Except.ok s

/-- Events that change a file or belong to sending mail, as opposed to message
reports and scrape attempts. -/
def isOutputEvent : Event → Bool
  | Event.fileWrite _ => true
  | Event.fileAppend _ => true
  | Event.emailFileWrite _ => true
  | Event.emailTry _ => true
  | Event.emailSend _ => true
  | _ => false

/-! ## Concrete inputs used by witnesses and counterexamples -/

/-- An environment whose scrapes find chapter "2", with all file-system and
mail effects succeeding. -/
def envOkA : Env :=
  { wlnFetch := fun _ => Except.ok "2"
    nuFetch := fun _ => Except.ok "2"
    urlWriteOk := true
    emailWriteOk := true
    connectOk := true
    loginOk := fun _ _ => true
    emailRead := some "user@example.com"
    urlRead := some "" }

/-- An environment where every scrape attempt raises inside its `try` and
every file operation succeeds. -/
def envScrapeFail : Env :=
  { envOkA with wlnFetch := fun _ => Except.error ()
                nuFetch := fun _ => Except.error () }

/-- An environment whose file opens fail. -/
def envWriteFail : Env :=
  { envOkA with urlWriteOk := false, emailWriteOk := false }

/-- An environment with no files on disk. -/
def envNoFiles : Env :=
  { envOkA with emailRead := none, urlRead := none }

def wlnURL : String := "https://www.wlnupdates.com/series-id/1/x"

def nuURL : String := "https://www.novelupdates.com/series/x/"

/-- A state holding one tracked record with stored token "1". -/
def st1 : ModelState :=
  { url_data := [⟨wlnURL, "1"⟩]
    urlFile := persistContent [⟨wlnURL, "1"⟩]
    emailFile := "user@example.com"
    user_email := "user@example.com"
    password := "pw"
    events := [] }

/-- A state with an empty ledger. -/
def stEmpty : ModelState :=
  { url_data := []
    urlFile := persistContent []
    emailFile := "user@example.com"
    user_email := "user@example.com"
    password := ""
    events := [] }

/-! ## Round-trip lemmas for the CSV codec -/

lemma stopOk_head_ne_quote {rest : List Char} (h : stopOk rest) :
    rest.head? ≠ some '"' := by
  cases rest with
  | nil => simp
  | cons c r =>
    simp only [List.head?_cons, ne_eq, Option.some.injEq]
    rcases h with h | h | h <;> simp [h]

lemma escQuotes_mem {c : Char} : ∀ {s : List Char}, c ∈ escQuotes s → c ∈ s ∨ c = '"'
  | [], h => by simp [escQuotes] at h
  | a :: s, h => by
    by_cases ha : a = '"'
    · simp only [escQuotes, if_pos ha, List.mem_cons] at h
      rcases h with h | h | h
      · exact Or.inr h
      · exact Or.inr h
      · rcases escQuotes_mem h with h | h
        · exact Or.inl (List.mem_cons_of_mem _ h)
        · exact Or.inr h
    · simp only [escQuotes, if_neg ha, List.mem_cons] at h
      rcases h with h | h
      · exact Or.inl (h ▸ List.mem_cons_self _ _)
      · rcases escQuotes_mem h with h | h
        · exact Or.inl (List.mem_cons_of_mem _ h)
        · exact Or.inr h

lemma mem_encodeField {c : Char} {s : List Char} (h : c ∈ encodeField s) :
    c ∈ s ∨ c = '"' := by
  by_cases hq : needsQuote s
  · simp only [encodeField, if_pos hq, List.mem_cons, List.mem_append,
      List.mem_singleton] at h
    rcases h with h | h | h | h
    · exact Or.inr h
    · exact escQuotes_mem h
    · exact Or.inr h
    · simp at h
  · simp only [encodeField, if_neg hq] at h
    exact Or.inl h

lemma parseQuoted_escQuotes :
    ∀ (s rest : List Char), rest.head? ≠ some '"' →
      parseQuoted (escQuotes s ++ ('"' :: rest)) = (s, rest)
  | [], rest, h => by
    cases rest with
    | nil => simp [escQuotes, parseQuoted]
    | cons d r =>
      have hd : d ≠ '"' := by simpa using h
      simp [escQuotes, parseQuoted, hd]
  | a :: s, rest, h => by
    by_cases ha : a = '"'
    · have ih := parseQuoted_escQuotes s rest h
      simp [escQuotes, ha, parseQuoted, ih]
    · have ih := parseQuoted_escQuotes s rest h
      have hcons : escQuotes (a :: s) = a :: escQuotes s := by
        simp [escQuotes, ha]
      rw [hcons, List.cons_append, parseQuoted.eq_def]
      simp [ha, ih]

lemma isSpecialChar_false {c : Char} (h : isSpecialChar c = false) :
    c ≠ ',' ∧ c ≠ '"' ∧ c ≠ '\r' ∧ c ≠ '\n' := by
  have h' : (¬c = ',' ∧ ¬c = '"') ∧ ¬c = '\r' ∧ ¬c = '\n' := by
    simpa [isSpecialChar, and_assoc] using h
  exact ⟨h'.1.1, h'.1.2, h'.2.1, h'.2.2⟩

lemma needsQuote_cons_false {a : Char} {s : List Char}
    (h : needsQuote (a :: s) = false) :
    isSpecialChar a = false ∧ needsQuote s = false := by
  simpa [needsQuote] using h

lemma parseUnquoted_append :
    ∀ (s rest : List Char), needsQuote s = false → stopOk rest →
      parseUnquoted (s ++ rest) = (s, rest)
  | [], rest, _, hrest => by
    cases rest with
    | nil => simp [parseUnquoted]
    | cons c r => rcases hrest with h | h | h <;> simp [parseUnquoted, h]
  | a :: s, rest, hs, hrest => by
    obtain ⟨ha, hs'⟩ := needsQuote_cons_false hs
    obtain ⟨h1, _, h3, h4⟩ := isSpecialChar_false ha
    have ih := parseUnquoted_append s rest hs' hrest
    simp [parseUnquoted, h1, h3, h4, ih]

lemma parseField_encodeField (s rest : List Char) (hrest : stopOk rest) :
    parseField (encodeField s ++ rest) = (s, rest) := by
  by_cases hq : needsQuote s
  · have : encodeField s ++ rest = '"' :: (escQuotes s ++ ('"' :: rest)) := by
      simp [encodeField, hq]
    rw [this]
    simp [parseField, parseQuoted_escQuotes s rest (stopOk_head_ne_quote hrest)]
  · have hs : encodeField s = s := by simp [encodeField, hq]
    rw [hs]
    cases s with
    | nil =>
      cases rest with
      | nil => simp [parseField]
      | cons c r =>
        have hc : c ≠ '"' := by
          rcases hrest with h | h | h <;> simp [h]
        rcases hrest with h | h | h <;> simp [parseField, hc, parseUnquoted, h]
    | cons a s' =>
      obtain ⟨ha, _⟩ := needsQuote_cons_false (by simpa using hq)
      obtain ⟨_, h2, _, _⟩ := isSpecialChar_false ha
      have : parseField ((a :: s') ++ rest) = parseUnquoted ((a :: s') ++ rest) := by
        simp [parseField, h2]
      rw [this, parseUnquoted_append _ _ (by simpa using hq) hrest]

lemma parseRowF_encodeRowLF (fuel : Nat) (a b rest : List Char) :
    parseRowF (fuel + 1) (encodeRowLF a b ++ rest) = ([a, b], rest) := by
  have hshape : encodeRowLF a b ++ rest
      = encodeField a ++ (',' :: (encodeField b ++ ('\n' :: rest))) := by
    simp [encodeRowLF]
  have h1 : parseField (encodeField a ++ (',' :: (encodeField b ++ ('\n' :: rest))))
      = (a, ',' :: (encodeField b ++ ('\n' :: rest))) :=
    parseField_encodeField a _ (by simp [stopOk])
  have h2 : parseField (encodeField b ++ ('\n' :: rest)) = (b, '\n' :: rest) :=
    parseField_encodeField b _ (by simp [stopOk])
  rw [hshape]
  simp [parseRowF, h1, h2]

lemma encodeRowLF_length_pos (a b : List Char) : 0 < (encodeRowLF a b).length := by
  simp [encodeRowLF]

lemma parseRowsF_encodeRowsLF :
    ∀ (rows : List (List Char × List Char)) (fuel : Nat),
      rows.length ≤ fuel →
      parseRowsF fuel (encodeRowsLF rows) = rows.map fun p => [p.1, p.2]
  | [], fuel, _ => by
    cases fuel <;> simp [encodeRowsLF, parseRowsF]
  | p :: rs, fuel, hfuel => by
    obtain ⟨f, rfl⟩ : ∃ f, fuel = f + 1 := by
      cases fuel with
      | zero => simp at hfuel
      | succ f => exact ⟨f, rfl⟩
    have hcons : encodeRowsLF (p :: rs) = encodeRowLF p.1 p.2 ++ encodeRowsLF rs := by
      simp [encodeRowsLF]
    have hpos : 0 < (encodeRowLF p.1 p.2 ++ encodeRowsLF rs).length := by
      simp only [List.length_append]
      exact Nat.lt_of_lt_of_le (encodeRowLF_length_pos p.1 p.2) (Nat.le_add_right _ _)
    obtain ⟨m, hm⟩ : ∃ m, (encodeRowLF p.1 p.2 ++ encodeRowsLF rs).length = m + 1 :=
      ⟨_, (Nat.succ_pred_eq_of_pos hpos).symm⟩
    have hne : (encodeRowLF p.1 p.2 ++ encodeRowsLF rs).isEmpty = false := by
      cases h : (encodeRowLF p.1 p.2 ++ encodeRowsLF rs) with
      | nil => rw [h] at hpos; simp at hpos
      | cons x xs => simp
    have hrow := parseRowF_encodeRowLF m p.1 p.2 (encodeRowsLF rs)
    have ih := parseRowsF_encodeRowsLF rs f (Nat.le_of_succ_le_succ hfuel)
    rw [hcons]
    simp only [parseRowsF, hne, if_neg]
    rw [hm, hrow]
    simp [ih]

lemma translateNewlines_crlf (t : List Char) :
    translateNewlines ('\r' :: '\n' :: t) = '\n' :: translateNewlines t := by
  simp [translateNewlines]

lemma translateNewlines_noCR_append :
    ∀ (cs rest : List Char), (∀ c ∈ cs, c ≠ '\r') →
      translateNewlines (cs ++ rest) = cs ++ translateNewlines rest
  | [], rest, _ => by simp
  | a :: cs, rest, h => by
    have ha : a ≠ '\r' := h a (List.mem_cons_self _ _)
    have ih := translateNewlines_noCR_append cs rest fun c hc =>
      h c (List.mem_cons_of_mem _ hc)
    rw [List.cons_append, translateNewlines.eq_def]
    simp [ha, ih]

lemma translateNewlines_encodeRows :
    ∀ (rows : List (List Char × List Char)), (∀ p ∈ rows, noCRRow p) →
      translateNewlines (encodeRows rows) = encodeRowsLF rows
  | [], _ => by simp [encodeRows, encodeRowsLF, translateNewlines]
  | p :: rs, h => by
    obtain ⟨h1, h2⟩ := h p (List.mem_cons_self _ _)
    have hbody : ∀ c ∈ encodeField p.1 ++ ',' :: encodeField p.2, c ≠ '\r' := by
      intro c hc
      rcases List.mem_append.1 hc with hc | hc
      · rcases mem_encodeField hc with hc | hc
        · exact h1 c hc
        · simp [hc]
      · rcases List.mem_cons.1 hc with hc | hc
        · simp [hc]
        · rcases mem_encodeField hc with hc | hc
          · exact h2 c hc
          · simp [hc]
    have hshape : encodeRows (p :: rs)
        = (encodeField p.1 ++ ',' :: encodeField p.2) ++ ('\r' :: '\n' :: encodeRows rs) := by
      simp [encodeRows, encodeRow2]
    have ih := translateNewlines_encodeRows rs fun q hq => h q (List.mem_cons_of_mem _ hq)
    rw [hshape, translateNewlines_noCR_append _ _ hbody, translateNewlines_crlf, ih]
    simp [encodeRowsLF, encodeRowLF]

lemma length_encodeRowsLF_ge :
    ∀ (rows : List (List Char × List Char)), rows.length ≤ (encodeRowsLF rows).length
  | [] => by simp [encodeRowsLF]
  | p :: rs => by
    have ih := length_encodeRowsLF_ge rs
    have hpos := encodeRowLF_length_pos p.1 p.2
    have : encodeRowsLF (p :: rs) = encodeRowLF p.1 p.2 ++ encodeRowsLF rs := by
      simp [encodeRowsLF]
    rw [this]
    simp only [List.length_cons, List.length_append]
    omega

/-! ## Loading the persisted ledger -/

lemma string_mk_data (s : String) : String.mk s.data = s := rfl

lemma fieldByName_first (u c : String) :
    fieldByName ["URL", "latestChapter"] [u, c] "URL" = u := by
  simp [fieldByName, List.find?]

lemma fieldByName_second (u c : String) :
    fieldByName ["URL", "latestChapter"] [u, c] "latestChapter" = c := by
  have hne : (("URL" : String) == "latestChapter") = false := by decide
  simp [fieldByName, List.find?, hne]

lemma rowsOf_persistContent (l : List Record)
    (h : ∀ r ∈ l, (∀ c ∈ r.URL.data, c ≠ '\r') ∧ (∀ c ∈ r.latestChapter.data, c ≠ '\r')) :
    rowsOf (persistContent l)
      = ["URL", "latestChapter"] :: l.map fun r => [r.URL, r.latestChapter] := by
  have hdata : (persistContent l).data = persistChars l := rfl
  have hnoCR : ∀ p ∈ ("URL".data, "latestChapter".data)
      :: l.map (fun r => (r.URL.data, r.latestChapter.data)), noCRRow p := by
    intro p hp
    rcases List.mem_cons.1 hp with hp | hp
    · subst hp
      constructor
      · intro c hc
        fin_cases hc <;> decide
      · intro c hc
        fin_cases hc <;> decide
    · obtain ⟨r, hr, rfl⟩ := List.mem_map.1 hp
      exact h r hr
  have htr : translateNewlines (persistChars l)
      = encodeRowsLF (("URL".data, "latestChapter".data)
          :: l.map fun r => (r.URL.data, r.latestChapter.data)) :=
    translateNewlines_encodeRows _ hnoCR
  have hlen := length_encodeRowsLF_ge
    (("URL".data, "latestChapter".data) :: l.map fun r => (r.URL.data, r.latestChapter.data))
  have hparse := parseRowsF_encodeRowsLF
    (("URL".data, "latestChapter".data) :: l.map fun r => (r.URL.data, r.latestChapter.data))
    _ hlen
  rw [rowsOf, hdata, htr, hparse]
  simp [List.map_map, string_mk_data]

lemma load_persistContent (l : List Record)
    (h : ∀ r ∈ l, (∀ c ∈ r.URL.data, c ≠ '\r') ∧ (∀ c ∈ r.latestChapter.data, c ≠ '\r')) :
    _load_URL_Data (persistContent l) = l := by
  rw [_load_URL_Data, rowsOf_persistContent l h]
  show List.map
      (fun row =>
        ({ URL := fieldByName ["URL", "latestChapter"] row "URL",
           latestChapter := fieldByName ["URL", "latestChapter"] row "latestChapter" }
          : Record))
      (List.map (fun r => [r.URL, r.latestChapter]) l) = l
  rw [List.map_map]
  have hpt : ∀ r ∈ l,
      ((fun row =>
          ({ URL := fieldByName ["URL", "latestChapter"] row "URL",
             latestChapter := fieldByName ["URL", "latestChapter"] row "latestChapter" }
            : Record)) ∘ fun r => [r.URL, r.latestChapter]) r = id r := by
    intro r _
    simp [Function.comp, fieldByName_first, fieldByName_second]
  rw [List.map_congr_left hpt, List.map_id]

/-! ## Characterizations of the scraper dispatch and the diff engine -/

lemma strContains_iff (hay needle : String) :
    strContains hay needle = true ↔ needle.data <:+: hay.data := by
  simp [strContains]

lemma dispatch_eq (env : Env) (URL : String) (s : ModelState) :
    _get_Latest_Chapter_URL_Filtered env URL s
      = (scrapePure env URL, { s with events := s.events ++ dispatchEvents env URL }) := by
  unfold _get_Latest_Chapter_URL_Filtered scrapePure dispatchEvents
  split_ifs with h1 h2
  · unfold _webscrape_WLN_Latest_Chapter
    cases env.wlnFetch URL <;> simp [Except.toOption]
  · unfold _webscrape_Novelupdates_Latest_Chapter
    cases env.nuFetch URL <;> simp [Except.toOption]
  · simp [addMsg]

lemma compileList_spec (env : Env) :
    ∀ (l : List Record) (s : ModelState),
      compileList env s l
        = ((l.filter (isUpdated env)).map Record.URL,
           l.map (recordStep env),
           { s with events := s.events ++ eventsAll env l })
  | [], s => by simp [compileList, eventsAll]
  | r :: rest, s => by
    have ih := compileList_spec env rest
      { s with events := s.events ++ dispatchEvents env r.URL }
    rw [compileList, dispatch_eq]
    cases hsp : scrapePure env r.URL with
    | none =>
      simp only [hsp, ih]
      simp [isUpdated, recordStep, eventsAll, hsp, List.filter_cons]
    | some chap =>
      by_cases hlt : r.latestChapter < chap
      · simp only [hsp, if_pos hlt, ih]
        simp [isUpdated, recordStep, eventsAll, hsp, hlt, List.filter_cons]
      · simp only [hsp, if_neg hlt, ih]
        simp [isUpdated, recordStep, eventsAll, hsp, hlt, List.filter_cons]

lemma compile_eq (env : Env) (s : ModelState) :
    _compile_updated_URLS env s
      = ((s.url_data.filter (isUpdated env)).map Record.URL,
         { s with url_data := s.url_data.map (recordStep env),
                  events := s.events ++ eventsAll env s.url_data }) := by
  rw [_compile_updated_URLS, compileList_spec env s.url_data s]

lemma recordStep_URL (env : Env) (r : Record) : (recordStep env r).URL = r.URL := by
  cases hsp : scrapePure env r.URL with
  | none => simp [recordStep, hsp]
  | some chap =>
    by_cases hlt : r.latestChapter < chap <;> simp [recordStep, hsp, hlt]

lemma check_eq (env : Env) (s : ModelState) :
    _webscrape_Check env s =
      if s.url_data.isEmpty then s
      else if ((s.url_data.filter (isUpdated env)).map Record.URL).isEmpty then
        { s with url_data := s.url_data.map (recordStep env),
                 events := s.events ++ eventsAll env s.url_data }
      else if env.urlWriteOk then
        { s with url_data := s.url_data.map (recordStep env),
                 urlFile := persistContent (s.url_data.map (recordStep env)),
                 events := s.events ++ eventsAll env s.url_data
                   ++ Event.fileWrite (persistContent (s.url_data.map (recordStep env)))
                     :: sendEventsOf env s.user_email s.password
                          ((s.url_data.filter (isUpdated env)).map Record.URL) }
      else
        { s with url_data := s.url_data.map (recordStep env),
                 events := s.events ++ eventsAll env s.url_data
                   ++ [Event.msg
                        "Error: Webscraper did not work. If this continues then restart program."] } := by
  rw [_webscrape_Check, compile_eq]
  by_cases h0 : s.url_data.isEmpty
  · simp [h0]
  · by_cases h1 : ((s.url_data.filter (isUpdated env)).map Record.URL).isEmpty
    · simp [h0, h1]
    · by_cases h2 : env.urlWriteOk
      · simp [h0, h1, h2, _write_URL_data_to_file, _send_Email, addMsg]
      · simp [h0, h1, h2, _write_URL_data_to_file, _send_Email, addMsg]

lemma dispatchEvents_no_output (env : Env) (u : String) :
    ((dispatchEvents env u).all fun e => !isOutputEvent e) = true := by
  unfold dispatchEvents
  split_ifs with h1 h2
  · cases env.wlnFetch u <;> simp [isOutputEvent]
  · cases env.nuFetch u <;> simp [isOutputEvent]
  · simp [isOutputEvent]

lemma eventsAll_no_output (env : Env) (l : List Record) :
    ((eventsAll env l).all fun e => !isOutputEvent e) = true := by
  rw [List.all_eq_true]
  intro e he
  rw [eventsAll, List.mem_flatten] at he
  obtain ⟨es, hes, he⟩ := he
  obtain ⟨r, _, rfl⟩ := List.mem_map.1 hes
  exact List.all_eq_true.1 (dispatchEvents_no_output env r.URL) e he

lemma removeFirst_sublist (r : Record) :
    ∀ l : List Record, List.Sublist (removeFirst r l) l
  | [] => List.Sublist.refl []
  | x :: xs => by
    by_cases hx : x = r
    · simp only [removeFirst, if_pos hx]
      exact List.sublist_cons_self x xs
    · simp only [removeFirst, if_neg hx]
      exact List.Sublist.cons₂ x (removeFirst_sublist r xs)

lemma removeFirst_length (r : Record) :
    ∀ l : List Record, r ∈ l → (removeFirst r l).length + 1 = l.length
  | [], h => absurd h (List.not_mem_nil r)
  | x :: xs, h => by
    by_cases hx : x = r
    · simp [removeFirst, if_pos hx]
    · have hr : r ∈ xs := by
        rcases List.mem_cons.1 h with h | h
        · exact absurd h.symm hx
        · exact h
      simp only [removeFirst, if_neg hx, List.length_cons]
      rw [← removeFirst_length r xs hr]

lemma find?_removeFirst_eraseP {p : Record → Bool} :
    ∀ {l : List Record} {r : Record}, l.find? p = some r →
      removeFirst r l = l.eraseP p
  | [], r, h => by simp [List.find?] at h
  | x :: xs, r, h => by
    cases hx : p x with
    | true =>
      rw [List.find?_cons_of_pos _ hx, Option.some.injEq] at h
      subst h
      simp [removeFirst, List.eraseP_cons, hx]
    | false =>
      rw [List.find?_cons_of_neg _ (by simp [hx])] at h
      have hpr : p r = true := List.find?_some h
      have hxr : x ≠ r := by
        intro hcontra
        rw [hcontra, hpr] at hx
        exact Bool.noConfusion hx
      rw [show removeFirst r (x :: xs) = x :: removeFirst r xs by
        simp [removeFirst, hxr]]
      simp [List.eraseP_cons, hx, find?_removeFirst_eraseP h]

/-! ## Claims -/

/-- C1: for every record of the ledger, `_compile_updated_URLS` reports the
record's URL as updated and replaces its stored token with the freshly scraped
token exactly when the scraped token is strictly greater than the stored token
in lexicographic string order (`isUpdated` holds exactly then, and
`recordStep` replaces the token exactly then, leaving the record unchanged
when the scraped token is equal or smaller or absent). -/
theorem C1_diff_engine_updates_iff_lex_greater (env : Env) (s : ModelState) :
    (_compile_updated_URLS env s).1
        = (s.url_data.filter (isUpdated env)).map Record.URL
      ∧ (_compile_updated_URLS env s).2.url_data
        = s.url_data.map (recordStep env) := by
  rw [compile_eq]
  exact ⟨rfl, rfl⟩

/-- C2: a record whose scrape comes back Absent is skipped: its URL is not
reported, its stored token is unchanged, the remaining records are still all
processed (the mutated ledger is the pointwise `recordStep` image of the whole
ledger), and the check operation never lets an exception escape. -/
theorem C2_absent_scrape_skips_record (env : Env) (s : ModelState) (u : String)
    (h : scrapePure env u = none) :
    u ∉ (_compile_updated_URLS env s).1
      ∧ (_compile_updated_URLS env s).2.url_data = s.url_data.map (recordStep env)
      ∧ (∀ r ∈ s.url_data, r.URL = u → recordStep env r = r)
      ∧ (∀ t : ModelState, (step env Op.check t).2 = none) := by
  refine ⟨?_, ?_, ?_, fun t => rfl⟩
  · intro hmem
    rw [compile_eq] at hmem
    obtain ⟨r, hr, hru⟩ := List.mem_map.1 hmem
    have hupd : isUpdated env r = true := List.of_mem_filter hr
    rw [isUpdated, hru, h] at hupd
    exact Bool.noConfusion hupd
  · rw [compile_eq]
  · intro r _ hru
    simp [recordStep, hru, h]

theorem C2_witness :
    scrapePure envScrapeFail wlnURL = none
      ∧ wlnURL ∉ (_compile_updated_URLS envScrapeFail st1).1 :=
  ⟨by decide, (C2_absent_scrape_skips_record envScrapeFail st1 wlnURL (by decide)).1⟩

/-- C3: the scraper dispatch invokes Extraction Routine A exactly when the URL
contains both "wln" and "series-id" (first match wins), otherwise Routine B
exactly when it contains both "novelupdates" and "series", and otherwise
returns Absent having reported only the unsupported-domain error; containment
is case-sensitive substring containment (`List.IsInfix` on the characters). -/
theorem C3_dispatch_rule (env : Env) (URL : String) (s : ModelState) :
    ((("wln".data <:+: URL.data) ∧ ("series-id".data <:+: URL.data)) ↔
        Event.fetchA URL ∈
          (_get_Latest_Chapter_URL_Filtered env URL s).2.events.drop s.events.length)
  ∧ ((¬(("wln".data <:+: URL.data) ∧ ("series-id".data <:+: URL.data))
        ∧ ("novelupdates".data <:+: URL.data) ∧ ("series".data <:+: URL.data)) ↔
        Event.fetchB URL ∈
          (_get_Latest_Chapter_URL_Filtered env URL s).2.events.drop s.events.length)
  ∧ ((¬(("wln".data <:+: URL.data) ∧ ("series-id".data <:+: URL.data))
        ∧ ¬(("novelupdates".data <:+: URL.data) ∧ ("series".data <:+: URL.data))) ↔
        ((_get_Latest_Chapter_URL_Filtered env URL s).1 = none
          ∧ (_get_Latest_Chapter_URL_Filtered env URL s).2.events.drop s.events.length
              = [Event.msg errDomainMsg])) := by
  rw [dispatch_eq]
  dsimp only
  rw [List.drop_left]
  by_cases hAb : (strContains URL "wln" && strContains URL "series-id") = true
  · have hA : ("wln".data <:+: URL.data) ∧ ("series-id".data <:+: URL.data) := by
      simpa [strContains] using hAb
    cases hf : env.wlnFetch URL <;>
      simp [dispatchEvents, scrapePure, hAb, hf, hA, Except.toOption]
  · rw [Bool.not_eq_true] at hAb
    have hA : ¬(("wln".data <:+: URL.data) ∧ ("series-id".data <:+: URL.data)) := by
      simpa [strContains] using hAb
    by_cases hBb : (strContains URL "novelupdates" && strContains URL "series") = true
    · have hB : ("novelupdates".data <:+: URL.data) ∧ ("series".data <:+: URL.data) := by
        simpa [strContains] using hBb
      cases hf : env.nuFetch URL <;>
        simp [dispatchEvents, scrapePure, hAb, hBb, hf, hA, hB, Except.toOption]
    · rw [Bool.not_eq_true] at hBb
      have hB : ¬(("novelupdates".data <:+: URL.data) ∧ ("series".data <:+: URL.data)) := by
        simpa [strContains] using hBb
      simp [dispatchEvents, scrapePure, hAb, hBb, hA, hB]

theorem C3_witness :
    Event.fetchA wlnURL ∈
      (_get_Latest_Chapter_URL_Filtered envOkA wlnURL st1).2.events.drop st1.events.length :=
  ((C3_dispatch_rule envOkA wlnURL st1).1).mp (by decide)

/-- C4: URL uniqueness is an invariant: every public operation maps a ledger
with pairwise-distinct URLs to a ledger with pairwise-distinct URLs; and
`addURLData` on a URL already present only reports the duplicate error — the
resulting state is exactly the old state plus that message, so the ledger, the
file and the scrape log are untouched and nothing is raised. -/
theorem C4_uniqueness_invariant (env : Env) (op : Op) (s : ModelState) (URL : String) :
    ((s.url_data.map Record.URL).Nodup →
        ((step env op s).1.url_data.map Record.URL).Nodup)
  ∧ ((∃ r ∈ s.url_data, r.URL = URL) →
        step env (Op.addURL URL) s
          = (addMsg s "ERROR: URL is already in data structure", none)) := by
  constructor
  · intro hnd
    cases op with
    | addURL u =>
      simp only [step, addURLData]
      by_cases hdup : s.url_data.any (fun r => r.URL == u) = true
      · simp [hdup, addMsg]
        exact hnd
      · rw [Bool.not_eq_true] at hdup
        rw [dispatch_eq]
        cases hsp : scrapePure env u with
        | none => simpa [hdup] using hnd
        | some chap =>
          have hnotin : u ∉ s.url_data.map Record.URL := by
            intro hmem
            obtain ⟨r, hr, hru⟩ := List.mem_map.1 hmem
            have hpu : (r.URL == u) = true := by simp [hru]
            have hall : s.url_data.any (fun x => x.URL == u) = true :=
              List.any_eq_true.2 ⟨r, hr, hpu⟩
            rw [hdup] at hall
            exact Bool.noConfusion hall
          by_cases hw : env.urlWriteOk <;>
            · simp [hdup, hw, List.map_append]
              refine List.Nodup.append hnd (by simp) ?_
              intro b hb hmem
              rw [List.mem_singleton] at hmem
              exact hnotin (hmem ▸ hb)
    | deleteURL u =>
      simp only [step, deleteURLData]
      cases hf : s.url_data.find? (fun r => r.URL == u) with
      | none => simpa [addMsg] using hnd
      | some r =>
        simp only [_write_URL_data_to_file]
        have hsub := (removeFirst_sublist r s.url_data).map Record.URL
        by_cases hw : env.urlWriteOk <;> simp [hw] <;>
          exact List.Nodup.sublist hsub hnd
    | check =>
      simp only [step]
      rw [check_eq]
      have hmap : (s.url_data.map (recordStep env)).map Record.URL
          = s.url_data.map Record.URL := by
        rw [List.map_map]
        exact List.map_congr_left fun r _ => recordStep_URL env r
      split_ifs
      · exact hnd
      · simpa [hmap] using hnd
      · simpa [hmap] using hnd
      · simpa [hmap] using hnd
    | setEmail e =>
      simp only [step, setEmail]
      by_cases hw : env.emailWriteOk <;> simp [hw] <;> exact hnd
    | setPassword p => simpa [step, setPassword] using hnd
    | getEmail => simpa [step] using hnd
    | getPassword => simpa [step] using hnd
  · intro hex
    obtain ⟨r, hr, hru⟩ := hex
    have hany : s.url_data.any (fun x => x.URL == URL) = true :=
      List.any_eq_true.2 ⟨r, hr, by simp [hru]⟩
    simp [step, addURLData, hany]

theorem C4_witness :
    ((step envOkA Op.check st1).1.url_data.map Record.URL).Nodup
  ∧ step envOkA (Op.addURL wlnURL) st1
      = (addMsg st1 "ERROR: URL is already in data structure", none) :=
  ⟨(C4_uniqueness_invariant envOkA Op.check st1 wlnURL).1 (by decide),
   (C4_uniqueness_invariant envOkA (Op.addURL wlnURL) st1 wlnURL).2
     ⟨⟨wlnURL, "1"⟩, by decide, rfl⟩⟩

/-- C5: `addURLData` on a URL that is not in the ledger and whose scrape comes
back Absent aborts without mutating anything: the resulting state is exactly
the old state plus the events of the scrape attempt itself (so the ledger and
the file are unchanged and no message beyond the scraper's own is reported),
and nothing is raised. -/
theorem C5_addurl_absent_scrape_aborts (env : Env) (URL : String) (s : ModelState)
    (h1 : ∀ r ∈ s.url_data, r.URL ≠ URL) (h2 : scrapePure env URL = none) :
    step env (Op.addURL URL) s
      = ({ s with events := s.events ++ dispatchEvents env URL }, none) := by
  have hany : s.url_data.any (fun r => r.URL == URL) = false := by
    rw [List.any_eq_false]
    intro r hr
    simpa using h1 r hr
  simp [step, addURLData, hany, dispatch_eq, h2]

theorem C5_witness :
    (∀ r ∈ st1.url_data, r.URL ≠ "https://example.com/abc")
  ∧ scrapePure envScrapeFail "https://example.com/abc" = none
  ∧ step envScrapeFail (Op.addURL "https://example.com/abc") st1
      = ({ st1 with events := st1.events
            ++ dispatchEvents envScrapeFail "https://example.com/abc" }, none) :=
  ⟨by decide, by decide,
   C5_addurl_absent_scrape_aborts envScrapeFail "https://example.com/abc" st1
     (by decide) (by decide)⟩

/-- C6: when the URL is present, `deleteURLData` removes exactly the first
record whose URL matches (`List.eraseP`), so the ledger shrinks by exactly
one, reports "Success" and rewrites the whole ledger file; when the URL is
absent it reports the not-found error and changes nothing. -/
theorem C6_delete_url (env : Env) (URL : String) (s : ModelState)
    (hw : env.urlWriteOk = true) :
    (∀ r, s.url_data.find? (fun x => x.URL == URL) = some r →
        step env (Op.deleteURL URL) s
          = ({ s with
                url_data := s.url_data.eraseP (fun x => x.URL == URL),
                urlFile := persistContent (s.url_data.eraseP (fun x => x.URL == URL)),
                events := s.events
                  ++ [Event.msg "Success",
                      Event.fileWrite
                        (persistContent (s.url_data.eraseP (fun x => x.URL == URL)))] },
             none)
        ∧ (s.url_data.eraseP (fun x => x.URL == URL)).length + 1 = s.url_data.length)
  ∧ ((∀ r ∈ s.url_data, r.URL ≠ URL) →
        step env (Op.deleteURL URL) s
          = (addMsg s "Error: URL is not within existing data or not correct!", none)) := by
  constructor
  · intro r hr
    have her := find?_removeFirst_eraseP hr
    have hmem := List.mem_of_find?_eq_some hr
    constructor
    · simp [step, deleteURLData, hr, _write_URL_data_to_file, hw, her,
        List.append_assoc]
    · rw [← her]
      exact removeFirst_length r s.url_data hmem
  · intro hnone
    have hf : s.url_data.find? (fun x => x.URL == URL) = none := by
      rw [List.find?_eq_none]
      intro x hx
      simp [hnone x hx]
    simp [step, deleteURLData, hf]

theorem C6_witness :
    envOkA.urlWriteOk = true
  ∧ (st1.url_data.eraseP (fun x => x.URL == wlnURL)).length + 1 = st1.url_data.length :=
  ⟨rfl, ((C6_delete_url envOkA wlnURL st1 rfl).1 ⟨wlnURL, "1"⟩ (by decide)).2⟩

lemma compile_fst_of_empty (env : Env) (s : ModelState) (h : s.url_data = []) :
    (_compile_updated_URLS env s).1 = [] := by
  rw [compile_eq]
  simp [h]

lemma compile_snd_of_empty (env : Env) (s : ModelState) (h : s.url_data = []) :
    (_compile_updated_URLS env s).2 = s := by
  rw [compile_eq]
  rcases s with ⟨d, uf, ef, ue, pw, ev⟩
  simp only at h
  subst h
  simp [eventsAll]

/-- C7: checking for updates is a no-op on an empty ledger; on a non-empty
ledger it runs the diff engine over every record, and it rewrites the ledger
file and then invokes the notifier (`Event.fileWrite` immediately followed by
the `sendEventsOf` block, which opens with the notifier invocation) exactly
when the updated-URL list is non-empty; when that list is empty the file
content is untouched and no file or mail event is emitted at all. -/
theorem C7_check_orchestration (env : Env) (s : ModelState) :
    (s.url_data = [] → _webscrape_Check env s = s)
  ∧ ((_compile_updated_URLS env s).1 = [] →
        _webscrape_Check env s = (_compile_updated_URLS env s).2
      ∧ (_webscrape_Check env s).urlFile = s.urlFile
      ∧ (((_webscrape_Check env s).events.drop s.events.length).all
            fun e => !isOutputEvent e) = true)
  ∧ ((_compile_updated_URLS env s).1 ≠ [] → env.urlWriteOk = true →
        _webscrape_Check env s
          = { (_compile_updated_URLS env s).2 with
              urlFile := persistContent (_compile_updated_URLS env s).2.url_data,
              events := (_compile_updated_URLS env s).2.events
                ++ Event.fileWrite
                    (persistContent (_compile_updated_URLS env s).2.url_data)
                  :: sendEventsOf env s.user_email s.password
                       (_compile_updated_URLS env s).1 }) := by
  refine ⟨?_, ?_, ?_⟩
  · intro h
    rw [check_eq]
    simp [h]
  · intro h
    by_cases h0 : s.url_data.isEmpty
    · have hnil : s.url_data = [] := by simpa using h0
      have hc2 := compile_snd_of_empty env s hnil
      have hcheck : _webscrape_Check env s = s := by
        rw [check_eq]
        simp [h0]
      refine ⟨by rw [hcheck, hc2], by rw [hcheck], ?_⟩
      rw [hcheck]
      simp [List.drop_length]
    · have h1 : ((s.url_data.filter (isUpdated env)).map Record.URL).isEmpty = true := by
        rw [compile_eq] at h
        simp only at h
        simp [h]
      rw [check_eq]
      simp only [h0, Bool.false_eq_true, if_false, h1, if_true]
      refine ⟨by rw [compile_eq], by trivial, ?_⟩
      rw [List.drop_left]
      exact eventsAll_no_output env s.url_data
  · intro h hw
    have h0 : s.url_data.isEmpty = false := by
      cases hnil : s.url_data with
      | nil => exact absurd (compile_fst_of_empty env s hnil) h
      | cons x xs => rfl
    have h1 : ((s.url_data.filter (isUpdated env)).map Record.URL).isEmpty = false := by
      rw [compile_eq] at h
      simp only at h
      cases hx : (s.url_data.filter (isUpdated env)).map Record.URL with
      | nil => exact absurd hx h
      | cons x xs => rfl
    rw [check_eq]
    simp only [h0, Bool.false_eq_true, if_false, h1, hw, if_true]
    rw [compile_eq]

theorem C7_witness :
    _webscrape_Check envOkA stEmpty = stEmpty
  ∧ _webscrape_Check envOkA st1
      = { (_compile_updated_URLS envOkA st1).2 with
          urlFile := persistContent (_compile_updated_URLS envOkA st1).2.url_data,
          events := (_compile_updated_URLS envOkA st1).2.events
            ++ Event.fileWrite
                (persistContent (_compile_updated_URLS envOkA st1).2.url_data)
              :: sendEventsOf envOkA st1.user_email st1.password
                   (_compile_updated_URLS envOkA st1).1 } :=
  ⟨(C7_check_orchestration envOkA stEmpty).1 rfl,
   (C7_check_orchestration envOkA st1).2.2
     (by rw [show (_compile_updated_URLS envOkA st1).1 = [wlnURL] by
           with_unfolding_all rfl]
         simp) rfl⟩

/-- C8 counterexample: the round trip fails as universally stated.  The files
are opened in text mode without newline control, so reading translates the
carriage return inside a quoted field to a line feed: persisting the record
(URL "a", chapter "b\rc") and loading it back yields (URL "a", chapter
"b\nc"), not the original ledger. -/
theorem C8_roundtrip_counterexample :
    _load_URL_Data (persistContent [{ URL := "a", latestChapter := "b\rc" }])
      ≠ [{ URL := "a", latestChapter := "b\rc" }] := by
  decide

/-- C8 (amended): for every ledger whose fields contain no carriage return,
persisting and loading round-trips to the identical ordered record sequence,
and the persisted file parses as the fixed header ["URL", "latestChapter"]
followed by all records in the given order. -/
theorem C8_persist_load_roundtrip (l : List Record)
    (h : ∀ r ∈ l, (∀ c ∈ r.URL.data, c ≠ '\r') ∧ (∀ c ∈ r.latestChapter.data, c ≠ '\r')) :
    _load_URL_Data (persistContent l) = l
  ∧ rowsOf (persistContent l)
      = ["URL", "latestChapter"] :: l.map fun r => [r.URL, r.latestChapter] :=
  ⟨load_persistContent l h, rowsOf_persistContent l h⟩

theorem C8_witness :
    (∀ r ∈ [Record.mk "u" "5"],
        (∀ c ∈ r.URL.data, c ≠ '\r') ∧ (∀ c ∈ r.latestChapter.data, c ≠ '\r'))
  ∧ _load_URL_Data (persistContent [Record.mk "u" "5"]) = [Record.mk "u" "5"] :=
  ⟨by decide, (C8_persist_load_roundtrip [Record.mk "u" "5"] (by decide)).1⟩

/-- C9 counterexample: the claim fails as stated.  `setEmail` opens the email
file for writing with no try/except, so when the open fails the IOError
propagates to the caller and no message is reported. -/
theorem C9_counterexample :
    (step envWriteFail (Op.setEmail "new@example.com") stEmpty).2 = some PyErr.ioError
  ∧ (step envWriteFail (Op.setEmail "new@example.com") stEmpty).1.events
      = stEmpty.events := by
  constructor <;> rfl

/-- C9 (amended): check-for-updates, setPassword and the getters never let a
failure escape, and with succeeding file opens neither do setEmail, addURL and
deleteURL; but file-open failures in setEmail, addURL and deleteURL are the
exception to the spec's propagation policy (see the counterexample). -/
theorem C9_failure_propagation (env : Env) (s : ModelState) (e p u : String) :
    (step env Op.check s).2 = none
  ∧ (step env (Op.setPassword p) s).2 = none
  ∧ (step env Op.getEmail s).2 = none
  ∧ (step env Op.getPassword s).2 = none
  ∧ (env.emailWriteOk = true → (step env (Op.setEmail e) s).2 = none)
  ∧ (env.urlWriteOk = true →
        (step env (Op.addURL u) s).2 = none
      ∧ (step env (Op.deleteURL u) s).2 = none) := by
  refine ⟨rfl, rfl, rfl, rfl, ?_, ?_⟩
  · intro hw
    simp [step, setEmail, hw]
  · intro hw
    constructor
    · simp only [step, addURLData]
      by_cases hdup : s.url_data.any (fun r => r.URL == u) = true
      · simp [hdup]
      · rw [Bool.not_eq_true] at hdup
        rw [dispatch_eq]
        cases hsp : scrapePure env u <;> simp [hdup, hw]
    · simp only [step, deleteURLData]
      cases hf : s.url_data.find? (fun r => r.URL == u) <;>
        simp [_write_URL_data_to_file, hw, addMsg]

theorem C9_amended_witness :
    envOkA.emailWriteOk = true
  ∧ (step envOkA (Op.setEmail "x") st1).2 = none :=
  ⟨rfl, (C9_failure_propagation envOkA st1 "x" "p" "u").2.2.2.2.1 rfl⟩

/-- C10: construction raises when the email file is missing (it is opened
unconditionally, before anything else); with the email file present but the
ledger file missing construction likewise fails before any operation can run;
and after a successful construction the password is the empty string and
stays whatever it is under every operation other than setPassword. -/
theorem C10_construction (env : Env) :
    (env.emailRead = none → init env = Except.error PyErr.ioError)
  ∧ (∀ eb, env.emailRead = some eb → env.urlRead = none →
        init env = Except.error PyErr.ioError)
  ∧ (∀ s, init env = Except.ok s → getPassword s = "")
  ∧ (∀ op s, (∀ p, op ≠ Op.setPassword p) →
        getPassword (step env op s).1 = getPassword s) := by
  refine ⟨?_, ?_, ?_, ?_⟩
  · intro h
    simp [init, h]
  · intro eb h1 h2
    simp [init, h1, h2]
  · intro s h
    simp only [init] at h
    cases h1 : env.emailRead with
    | none => simp [h1] at h
    | some eb =>
      cases h2 : env.urlRead with
      | none => simp [h1, h2] at h
      | some ub =>
        simp only [h1, h2] at h
        by_cases hd : (_load_URL_Data ub).isEmpty
        · simp only [if_pos hd, _write_URL_data_to_file] at h
          by_cases hw : env.urlWriteOk
          · simp only [if_pos hw] at h
            simp only [Except.ok.injEq] at h
            subst h
            rfl
          · simp [if_neg hw] at h
        · simp only [if_neg hd, Except.ok.injEq] at h
          subst h
          rfl
  · intro op s hop
    cases op with
    | setPassword p => exact absurd rfl (hop p)
    | addURL u =>
      simp only [step, addURLData, getPassword]
      by_cases hdup : s.url_data.any (fun r => r.URL == u) = true
      · simp [hdup, addMsg]
      · rw [Bool.not_eq_true] at hdup
        rw [dispatch_eq]
        cases hsp : scrapePure env u <;>
          by_cases hw : env.urlWriteOk <;> simp [hdup, hw]
    | deleteURL u =>
      simp only [step, deleteURLData, getPassword]
      cases hf : s.url_data.find? (fun r => r.URL == u) <;>
        by_cases hw : env.urlWriteOk <;> simp [_write_URL_data_to_file, hw, addMsg]
    | check =>
      simp only [step, getPassword]
      rw [check_eq]
      split_ifs <;> rfl
    | setEmail e =>
      simp only [step, setEmail, getPassword]
      by_cases hw : env.emailWriteOk <;> simp [hw]
    | getEmail => rfl
    | getPassword => rfl

theorem C10_witness :
    envNoFiles.emailRead = none
  ∧ init envNoFiles = Except.error PyErr.ioError
  ∧ getPassword (step envNoFiles Op.getEmail st1).1 = getPassword st1 :=
  ⟨rfl, (C10_construction envNoFiles).1 rfl,
   (C10_construction envNoFiles).2.2.2 Op.getEmail st1 (fun _ h => Op.noConfusion h)⟩

end NovelAlerts
